import Mathlib

/-!
Shallow embedding of the webtorrent tracker: the server (swarm registry,
announce handling, peer introduction, signaling relay) and the reconnecting
client socket. JS strings are modelled as lists of UTF-16 code units, JS
objects used as string-keyed maps as insertion-ordered association lists
(assigning to an existing key keeps its position, which matches the JS
for-in iteration order used by the peer selector), and observable actions
(socket sends, event emissions) as explicit effect lists returned next to
the updated state.
-/

/-- A JavaScript string, as its list of UTF-16 code units. -/
abbrev Str := List Nat

/-! ### binaryToUtf8

The source decodes the transported peer id with
new Buffer(str, binary).toString(utf8): each code unit is truncated to a
byte, the byte sequence is decoded as UTF-8 (invalid sequences become the
replacement character U+FFFD), and the resulting code points are re-encoded
as UTF-16 code units. -/

/-- Classify a byte starting a UTF-8 sequence: inl cp for a one-byte (ASCII)
code point, inr none for an invalid lead byte, and inr (some (acc, need, lo,
hi)) for a multibyte lead with the partial code point, the number of
continuation bytes still needed, and the admissible range for the next byte
(which rules out overlong encodings, surrogates and values above U+10FFFF). -/
def utf8Lead (b : Nat) : Nat ⊕ Option (Nat × Nat × Nat × Nat) :=
  if b < 0x80 then .inl b
  else if b < 0xC2 then .inr none
  else if b ≤ 0xDF then .inr (some (b - 0xC0, 1, 0x80, 0xBF))
  else if b = 0xE0 then .inr (some (0, 2, 0xA0, 0xBF))
  else if b = 0xED then .inr (some (0xD, 2, 0x80, 0x9F))
  else if b ≤ 0xEF then .inr (some (b - 0xE0, 2, 0x80, 0xBF))
  else if b = 0xF0 then .inr (some (0, 3, 0x90, 0xBF))
  else if b ≤ 0xF3 then .inr (some (b - 0xF0, 3, 0x80, 0xBF))
  else if b = 0xF4 then .inr (some (b - 0xF0, 3, 0x80, 0x8F))
  else .inr none

/-- UTF-8 decoding with replacement of invalid input, threading the pending
multibyte state; a byte that fails a continuation check is reprocessed as the
start of a new sequence, one replacement character per maximal invalid part. -/
def utf8DecodeAux : Option (Nat × Nat × Nat × Nat) → List Nat → List Nat
  | none, [] => []
  | some _, [] => [0xFFFD]
  | none, b :: rest =>
    match utf8Lead b with
    | .inl cp => cp :: utf8DecodeAux none rest
    | .inr none => 0xFFFD :: utf8DecodeAux none rest
    | .inr (some pend) => utf8DecodeAux (some pend) rest
  | some (acc, need, lo, hi), b :: rest =>
    if lo ≤ b ∧ b ≤ hi then
      if need = 1 then (acc * 0x40 + (b - 0x80)) :: utf8DecodeAux none rest
      else utf8DecodeAux (some (acc * 0x40 + (b - 0x80), need - 1, 0x80, 0xBF)) rest
    else
      0xFFFD ::
        (match utf8Lead b with
         | .inl cp => cp :: utf8DecodeAux none rest
         | .inr none => 0xFFFD :: utf8DecodeAux none rest
         | .inr (some pend) => utf8DecodeAux (some pend) rest)

/-- Decode a byte list as UTF-8 code points, with replacement characters. -/
def utf8Decode (bytes : List Nat) : List Nat :=
  utf8DecodeAux none bytes

/-- Encode a list of code points as UTF-16 code units (surrogate pairs for
code points beyond the basic multilingual plane). -/
def utf16Encode : List Nat → List Nat
  | [] => []
  | cp :: rest =>
    if cp < 0x10000 then cp :: utf16Encode rest
    else
      let c := cp - 0x10000
      (0xD800 + c / 0x400) :: (0xDC00 + c % 0x400) :: utf16Encode rest

/-- The helper binaryToUtf8 of the source: truncate every code unit to a
byte, then decode the byte sequence as UTF-8 into a new JS string. -/
def binaryToUtf8 (s : Str) : Str :=
  utf16Encode (utf8Decode (s.map (· % 0x100)))

/-! ### String-keyed JS objects as insertion-ordered association lists -/

/-- Property read on a string-keyed JS object: none models undefined. -/
def mapGet {α : Type} : List (Str × α) → Str → Option α
  | [], _ => none
  | (k, v) :: rest, key => if k = key then some v else mapGet rest key

/-- Property write on a string-keyed JS object: an existing key keeps its
position in the iteration order, a new key is appended at the end. -/
def mapSet {α : Type} : List (Str × α) → Str → α → List (Str × α)
  | [], key, v => [(key, v)]
  | (k, w) :: rest, key, v =>
    if k = key then (key, v) :: rest else (k, w) :: mapSet rest key v

/-- Number of keys holding a non-null value (the some entries), as against
tombstoned (null) entries. -/
def countSome {α : Type} : List (Str × Option α) → Nat
  | [] => 0
  | (_, v) :: rest => (if v.isSome then 1 else 0) + countSome rest

/-! ### Server data model -/

/-- Entry of a swarm peers map, as created on a started announce: the stored
connection handle, the decoded peer id, and the completion flag, which is
absent on the freshly created JS object (hence false) and assigned true by
the completed transition. -/
structure Peer (C : Type) where
  socket : C
  peerId : Str
  complete : Bool := false
deriving DecidableEq

/-- A swarm: the aggregate counters and the peers map; a key mapped to none
is a tombstoned (null) entry left behind by a stopped announce. -/
structure Swarm (C : Type) where
  complete : Int
  incomplete : Int
  peers : List (Str × Option (Peer C))
deriving DecidableEq

/-- The swarm object freshly created by the registry. -/
def emptySwarm (C : Type) : Swarm C :=
  { complete := 0, incomplete := 0, peers := [] }

/-- Peer lookup as used by the truthiness guards of the handler: undefined
(missing key) and null (tombstoned entry) both read as no peer. -/
def peerLookup {C : Type} (swarm : Swarm C) (peerId : Str) : Option (Peer C) :=
  (mapGet swarm.peers peerId).bind id

/-- Server state: the torrents registry keyed by the binary info hash, and
the announce interval in seconds sent in every response. -/
structure ServerState (C : Type) where
  torrents : List (Str × Swarm C)
  intervalMs : Int
deriving DecidableEq

/-- A freshly constructed server with the default announce interval of ten
minutes in seconds (the constructor stores opts.interval / 1000 when given,
a knob none of the verified properties depend on). -/
def serverInit {C : Type} : ServerState C :=
  { torrents := [], intervalMs := 600 }

/-- The private registry lookup: return the swarm stored under the binary
info hash key, creating and storing a fresh empty swarm when absent. -/
def getSwarmByKey {C : Type} (st : ServerState C) (binaryInfoHash : Str) :
    Swarm C × ServerState C :=
  match mapGet st.torrents binaryInfoHash with
  | some swarm => (swarm, st)
  | none =>
    (emptySwarm C,
     { st with torrents := mapSet st.torrents binaryInfoHash (emptySwarm C) })

/-- Argument of the public getSwarm: either a Buffer of bytes or a JS string
holding the hex encoding of the hash. -/
inductive BufOrStr
  | buf (bytes : List Nat)
  | str (s : Str)

/-- Value of one hex digit character (accepting both letter cases). -/
def hexVal (c : Nat) : Option Nat :=
  if 48 ≤ c ∧ c ≤ 57 then some (c - 48)
  else if 97 ≤ c ∧ c ≤ 102 then some (c - 87)
  else if 65 ≤ c ∧ c ≤ 70 then some (c - 55)
  else none

/-- Byte decoding of a hex string as performed by new Buffer(s, hex):
consume pairs of hex digits, stopping at the first invalid or incomplete
pair. -/
def hexDecodeBytes : List Nat → List Nat
  | c1 :: c2 :: rest =>
    match hexVal c1, hexVal c2 with
    | some h, some l => (h * 16 + l) :: hexDecodeBytes rest
    | _, _ => []
  | _ => []

/-- The public getSwarm: normalize the two accepted encodings of an info
hash to the canonical binary key form, then look up or create the swarm. A
Buffer is turned into its binary string (code units equal to its bytes), a
string is parsed as hex into bytes first. -/
def getSwarm {C : Type} (st : ServerState C) (infoHash : BufOrStr) :
    Swarm C × ServerState C :=
  let binaryInfoHash :=
    match infoHash with
    | .buf bytes => bytes
    | .str s => hexDecodeBytes s
  getSwarmByKey st binaryInfoHash

/-- Canonical lowercase hex character of one hex digit. -/
def hexChar (d : Nat) : Nat :=
  if d < 10 then 48 + d else 87 + d

/-- Canonical lowercase hex string form of a byte list; used to state that
the two encodings of one hash resolve to the same swarm. -/
def hexEncode : List Nat → Str
  | [] => []
  | b :: rest => hexChar (b / 16) :: hexChar (b % 16) :: hexEncode rest

/-! ### Announce messages and effects -/

/-- The cap on peer introductions per announce (MAX_ANNOUNCE_PEERS). -/
def MAX_ANNOUNCE_PEERS : Nat := 20

/-- The value of the event field as dispatched by the switch: the four named
events, update for the empty string or an absent field (the two cases share
one switch body), and other for any other value, which hits the default
branch. -/
inductive JsEvent
  | started
  | stopped
  | completed
  | answered
  | update
  | other
deriving DecidableEq

/-- A parsed announce message. A field whose JS value is not a string (or,
for offers, not an array) is modelled as none, matching the typeof guards of
the handler; left holds the result of the Number conversion, with none for
NaN, so that the guard Number(data.left) === 0 reads left = some 0. -/
structure AnnounceData (O : Type) where
  info_hash : Option Str
  peer_id : Option Str
  event : JsEvent
  left : Option Int
  offers : Option (List O)
  to_peer_id : Option Str
  answer : Option Str
deriving DecidableEq

/-- The distinct diagnostic strings of the handler, for failure responses,
warning emissions and the warning message field of a response. -/
inductive TrackerMsg
  | invalidSocketMessage
  | invalidInfoHash
  | invalidPeerId
  | invalidToPeerId
  | invalidEvent
  | startedAlreadyInSwarm
  | stoppedNotInSwarm
  | completedNotInSwarm
  | completedAlreadyComplete
  | updateNotInSwarm
  | answeredNotInSwarm
  | noPeerWithToPeerId
deriving DecidableEq

/-- Names of the lifecycle events the server emits on itself. -/
inductive EmitName
  | start
  | stop
  | complete
  | update
  | answer
deriving DecidableEq

/-- A payload written to some connection: the standard response, a failure
response, a peer-introduction push, or the relayed raw answer (none models
the JS value false sent when the answer field was not a string). -/
inductive Payload (O : Type)
  | response (complete incomplete interval : Int) (warning : Option TrackerMsg)
  | failure (msg : TrackerMsg)
  | intro (offer : O) (fromPeerId : Str)
  | rawAnswer (ans : Option Str)
deriving DecidableEq

/-- An observable action of one message-handling turn. -/
inductive Effect (C O : Type)
  | send (target : C) (payload : Payload O)
  | emitWarning (msg : TrackerMsg)
  | emitEvent (name : EmitName)
deriving DecidableEq

/-- The inner error function: send a failure response to the originating
connection, then surface the condition as a non-fatal warning. -/
def errorEff {C O : Type} (socket : C) (msg : TrackerMsg) : List (Effect C O) :=
  [.send socket (.failure msg), .emitWarning msg]

/-! ### Peer selection and the announce handler -/

/-- The private getPeers: walk the peers map in iteration order, skip null
entries, and stop once numWant peers are collected (the break fires before
any push when numWant is zero). -/
def getPeersFromSwarm {C : Type} : List (Str × Option (Peer C)) → Nat → List (Peer C)
  | _, 0 => []
  | [], _ + 1 => []
  | (_, none) :: rest, n + 1 => getPeersFromSwarm rest (n + 1)
  | (_, some p) :: rest, n + 1 => p :: getPeersFromSwarm rest n

/-- The introduction pushes of one announce: the selected peer at ordinal
position i is sent the offer at index i together with the announcing peer
id, over its own stored connection. The pairing is a zip because the number
of selected peers never exceeds the number of supplied offers. -/
def introList {C O : Type} (selected : List (Peer C)) (offersL : List O)
    (peerId : Str) : List (Effect C O) :=
  (selected.zip offersL).map fun q => .send q.1.socket (.intro q.2 peerId)

/-- Tail of every non-returning switch branch: send the standard response
(with the warning message when the transition was skipped) to the
originating connection, then push the peer introductions. -/
def respond {C O : Type} (st : ServerState C) (socket : C) (swarm : Swarm C)
    (pre : List (Effect C O)) (warning : Option TrackerMsg) (numWant : Nat)
    (offersL : List O) (peerId : Str) : ServerState C × List (Effect C O) :=
  (st,
   pre ++ [.send socket (.response swarm.complete swarm.incomplete st.intervalMs warning)]
      ++ introList (getPeersFromSwarm swarm.peers numWant) offersL peerId)

/-- The switch of the message handler, from the resolved swarm lookup
onwards (source lines 113 to 230): the five event transitions and the
default branch, each mirroring the corresponding case body. -/
def handleAnnounce {C O : Type} (st : ServerState C) (socket : C)
    (d : AnnounceData O) (infoHash peerId : Str) :
    ServerState C × List (Effect C O) :=
  let gs := getSwarmByKey st infoHash
  let swarm := gs.1
  let st1 := gs.2
  let peer := peerLookup swarm peerId
  let numWant := min ((d.offers.map List.length).getD 0) MAX_ANNOUNCE_PEERS
  let offersL := d.offers.getD []
  match d.event, peer with
  | .started, some _ =>
      respond st1 socket swarm [] (some .startedAlreadyInSwarm) numWant offersL peerId
  | .started, none =>
      let swarmA :=
        if d.left = some 0 then { swarm with complete := swarm.complete + 1 }
        else { swarm with incomplete := swarm.incomplete + 1 }
      let swarmB :=
        { swarmA with
            peers := mapSet swarmA.peers peerId (some { socket := socket, peerId := peerId }) }
      let st2 := { st1 with torrents := mapSet st1.torrents infoHash swarmB }
      respond st2 socket swarmB [.emitEvent .start] none numWant offersL peerId
  | .stopped, none =>
      respond st1 socket swarm [] (some .stoppedNotInSwarm) numWant offersL peerId
  | .stopped, some q =>
      let swarmA :=
        if q.complete then { swarm with complete := swarm.complete - 1 }
        else { swarm with incomplete := swarm.incomplete - 1 }
      let swarmB := { swarmA with peers := mapSet swarmA.peers peerId none }
      let st2 := { st1 with torrents := mapSet st1.torrents infoHash swarmB }
      respond st2 socket swarmB [.emitEvent .stop] none numWant offersL peerId
  | .completed, none =>
      respond st1 socket swarm [] (some .completedNotInSwarm) numWant offersL peerId
  | .completed, some q =>
      if q.complete then
        respond st1 socket swarm [] (some .completedAlreadyComplete) numWant offersL peerId
      else
        let swarmA :=
          { swarm with
              complete := swarm.complete + 1
              incomplete := swarm.incomplete - 1
              peers := mapSet swarm.peers peerId (some { q with complete := true }) }
        let st2 := { st1 with torrents := mapSet st1.torrents infoHash swarmA }
        respond st2 socket swarmA [.emitEvent .complete] none numWant offersL peerId
  | .update, none =>
      respond st1 socket swarm [] (some .updateNotInSwarm) numWant offersL peerId
  | .update, some _ =>
      respond st1 socket swarm [.emitEvent .update] none numWant offersL peerId
  | .answered, none =>
      respond st1 socket swarm [] (some .answeredNotInSwarm) numWant offersL peerId
  | .answered, some _ =>
      match d.to_peer_id with
      | none => (st1, errorEff socket .invalidToPeerId)
      | some toPeerId =>
        if toPeerId = [] then (st1, errorEff socket .invalidToPeerId)
        else
          match peerLookup swarm toPeerId with
          | none => (st1, [.emitWarning .noPeerWithToPeerId])
          | some toPeer =>
              (st1, [.send toPeer.socket (.rawAnswer d.answer), .emitEvent .answer])
  | .other, _ => (st1, errorEff socket .invalidEvent)

/-- The socket message handler: JSON parsing (none models an unparseable
payload), the truthiness and length validation of info hash and decoded
peer id, then the event switch. -/
def onSocketMessage {C O : Type} (st : ServerState C) (socket : C)
    (data : Option (AnnounceData O)) : ServerState C × List (Effect C O) :=
  match data with
  | none => (st, errorEff socket .invalidSocketMessage)
  | some d =>
    match d.info_hash with
    | none => (st, errorEff socket .invalidInfoHash)
    | some infoHash =>
      if infoHash = [] then (st, errorEff socket .invalidInfoHash)
      else if infoHash.length ≠ 20 then (st, errorEff socket .invalidInfoHash)
      else
        match d.peer_id with
        | none => (st, errorEff socket .invalidPeerId)
        | some rawPeerId =>
          let peerId := binaryToUtf8 rawPeerId
          if peerId = [] then (st, errorEff socket .invalidPeerId)
          else if peerId.length ≠ 20 then (st, errorEff socket .invalidPeerId)
          else handleAnnounce st socket d infoHash peerId

/-- Process a sequence of inbound messages, each tagged with its originating
connection, keeping only the final server state. -/
def runServer {C O : Type} (st : ServerState C) :
    List (C × Option (AnnounceData O)) → ServerState C
  | [] => st
  | m :: rest => runServer (onSocketMessage (O := O) st m.1 m.2).1 rest

/-! ### Reconnecting client socket -/

/-- The default backoff delay before a reconnect attempt (RECONNECT_TIMEOUT,
in milliseconds). -/
def RECONNECT_TIMEOUT : Nat := 5000

/-- Client socket state: the configured backoff, the errored flag of the
current attempt, whether the once-wrapped error handler of the current
underlying connection has already fired, and whether an underlying
connection with live handlers is attached (false once onclose has nulled
the handlers and the ws field). -/
structure SocketClient where
  reconnectTimeout : Nat
  errored : Bool
  onerrorUsed : Bool
  wsAttached : Bool
deriving DecidableEq

/-- The private init of the client: reset the errored flag, create a fresh
underlying connection and bind its handlers, the error handler wrapped in
once. -/
def socketInit (s : SocketClient) : SocketClient :=
  { s with errored := false, onerrorUsed := false, wsAttached := true }

/-- The client constructor: record the configured backoff (a falsy option,
absent or zero, falls back to the default), then run init. -/
def mkSocket (optsReconnectTimeout : Option Nat) : SocketClient :=
  socketInit
    { reconnectTimeout :=
        match optsReconnectTimeout with
        | some t => if t = 0 then RECONNECT_TIMEOUT else t
        | none => RECONNECT_TIMEOUT
      errored := false, onerrorUsed := false, wsAttached := false }

/-- A callback fired by the underlying connection of the current attempt. -/
inductive ClientEvent
  | wsOpen
  | wsError
  | wsClose
deriving DecidableEq

/-- Observable actions of the client: notifications emitted upward, the
close request to the underlying connection, and the arming of the reconnect
timer with its delay in milliseconds. -/
inductive ClientEffect
  | emitReady
  | emitWarning
  | emitClose
  | wsCloseReq
  | scheduleInit (delayMs : Nat)
deriving DecidableEq

/-- One handler dispatch of the client: onopen emits ready; onerror (wrapped
in once, and dead after onclose nulled the handlers) sets the errored flag,
closes the underlying connection, arms the reconnect timer and emits a
warning; onclose detaches the handlers and emits close only when the attempt
did not end in error. -/
def clientStep (s : SocketClient) (e : ClientEvent) :
    SocketClient × List ClientEffect :=
  match e with
  | .wsOpen => if s.wsAttached then (s, [.emitReady]) else (s, [])
  | .wsError =>
    if s.wsAttached ∧ s.onerrorUsed = false then
      ({ s with errored := true, onerrorUsed := true },
       [.wsCloseReq, .scheduleInit s.reconnectTimeout, .emitWarning])
    else (s, [])
  | .wsClose =>
    if s.wsAttached then
      ({ s with wsAttached := false }, if s.errored then [] else [.emitClose])
    else (s, [])

/-- Process the callbacks of one physical connection attempt in order,
accumulating the emitted effects. -/
def clientRun (s : SocketClient) : List ClientEvent → SocketClient × List ClientEffect
  | [] => (s, [])
  | e :: rest =>
    let r := clientStep s e
    let r2 := clientRun r.1 rest
    (r2.1, r.2 ++ r2.2)

/-! ### Statement-side helpers -/

/-- The swarm invariant named by the specification: the two counters sum to
the number of non-null entries of the peers map. -/
def swarmInv {C : Type} (sw : Swarm C) : Prop :=
  sw.complete + sw.incomplete = countSome sw.peers

/-- Every swarm stored in the registry satisfies the swarm invariant. -/
def serverInv {C : Type} (st : ServerState C) : Prop :=
  ∀ k sw, mapGet st.torrents k = some sw → swarmInv sw

/-- The sum of the two counters of the swarm an info hash resolves to (zero
for a hash not yet in the registry, matching the freshly created swarm). -/
def swarmSum {C : Type} (st : ServerState C) (k : Str) : Int :=
  (getSwarmByKey st k).1.complete + (getSwarmByKey st k).1.incomplete

/-- The peer-introduction pushes among the effects of one turn. -/
def introSends {C O : Type} : List (Effect C O) → List (Effect C O) :=
  List.filter fun e =>
    match e with
    | .send _ (.intro _ _) => true
    | _ => false

/-- Whether a validated message reaches the response-and-introduction tail
of the handler: every event except answered does (including the skipped
transitions, which only add a warning message), answered only when the
sender is not in the swarm, and an unrecognized event never does. -/
def reachesResponse {C O : Type} (d : AnnounceData O) (peer : Option (Peer C)) : Bool :=
  match d.event with
  | .answered => peer.isNone
  | .other => false
  | _ => true

/-- Whether an inbound message fails validation: unparseable payload,
missing or wrong-length info hash, missing or wrong-length decoded peer id,
or an unrecognized event value. -/
def failsValidation {O : Type} (data : Option (AnnounceData O)) : Bool :=
  match data with
  | none => true
  | some d =>
    match d.info_hash with
    | none => true
    | some infoHash =>
      if infoHash = [] then true
      else if infoHash.length ≠ 20 then true
      else
        match d.peer_id with
        | none => true
        | some rawPeerId =>
          let peerId := binaryToUtf8 rawPeerId
          if peerId = [] then true
          else if peerId.length ≠ 20 then true
          else
            match d.event with
            | .other => true
            | _ => false

/-- Number of warning notifications in a client effect list. -/
def warnCount (l : List ClientEffect) : Nat :=
  (l.filter fun e =>
    match e with
    | .emitWarning => true
    | _ => false).length

/-! ### Concrete fixtures used by witnesses and counterexamples -/

/-- A concrete 20-character info hash (ASCII, used raw as registry key). -/
def hashH : Str := List.replicate 20 72

/-- A concrete 20-character ASCII peer id; being ASCII, its binary-to-UTF-8
decode is itself. -/
def pidP : Str := List.replicate 20 80

/-- A second concrete ASCII peer id. -/
def pidQ : Str := List.replicate 20 81

/-- A started announce with left zero from pidP for hashH, no offers. -/
def msgStartP : AnnounceData Nat :=
  { info_hash := some hashH, peer_id := some pidP, event := .started,
    left := some 0, offers := none, to_peer_id := none, answer := none }

/-- A stopped announce from pidP for hashH. -/
def msgStopP : AnnounceData Nat :=
  { msgStartP with event := .stopped, left := none }

/-- A completed announce from pidP for hashH. -/
def msgCompP : AnnounceData Nat :=
  { msgStartP with event := .completed, left := none }

/-- A started announce with nonzero left from pidQ for hashH, one offer. -/
def msgStartQ : AnnounceData Nat :=
  { info_hash := some hashH, peer_id := some pidQ, event := .started,
    left := some 100, offers := some [7], to_peer_id := none, answer := none }

/-- An update announce from pidP with two offers supplied. -/
def msgUpdP : AnnounceData Nat :=
  { info_hash := some hashH, peer_id := some pidP, event := .update,
    left := none, offers := some [3, 4], to_peer_id := none, answer := none }

/-- An answered announce from pidP addressed to pidQ with answer payload. -/
def msgAnsP : AnnounceData Nat :=
  { info_hash := some hashH, peer_id := some pidP, event := .answered,
    left := none, offers := none, to_peer_id := some pidQ, answer := some [97] }

/-- A syntactically well-formed announce carrying an unrecognized event. -/
def msgBadEvent : AnnounceData Nat :=
  { info_hash := some hashH, peer_id := some pidP, event := .other,
    left := none, offers := none, to_peer_id := none, answer := none }

/-- A swarm holding live entries for pidP (connection 0) and pidQ
(connection 1). -/
def swarmPQ : Swarm Nat :=
  { complete := 1, incomplete := 1,
    peers := [(pidP, some { socket := 0, peerId := pidP, complete := false }),
              (pidQ, some { socket := 1, peerId := pidQ, complete := false })] }

/-- A server whose registry holds swarmPQ under hashH. -/
def stPQ : ServerState Nat :=
  { torrents := [(hashH, swarmPQ)], intervalMs := 600 }

/-- A swarm whose single peer pidP is already marked complete. -/
def swarmPdone : Swarm Nat :=
  { complete := 1, incomplete := 0,
    peers := [(pidP, some { socket := 0, peerId := pidP, complete := true })] }

/-- A server whose registry holds swarmPdone under hashH. -/
def stPdone : ServerState Nat :=
  { torrents := [(hashH, swarmPdone)], intervalMs := 600 }

/-! ### Lemmas about the map operations -/

theorem mapGet_mapSet_self {α : Type} (m : List (Str × α)) (k : Str) (v : α) :
    mapGet (mapSet m k v) k = some v := by
  induction m with
  | nil => simp [mapGet, mapSet]
  | cons e rest ihm =>
    obtain ⟨k1, v1⟩ := e
    by_cases h : k1 = k
    · simp [mapGet, mapSet, h]
    · simp [mapGet, mapSet, h, ihm]

theorem mapGet_mapSet_ne {α : Type} (m : List (Str × α)) {k k2 : Str} (v : α)
    (h : k2 ≠ k) : mapGet (mapSet m k v) k2 = mapGet m k2 := by
  have hne : k ≠ k2 := Ne.symm h
  induction m with
  | nil => simp [mapGet, mapSet, hne]
  | cons e rest ihm =>
    obtain ⟨k1, v1⟩ := e
    by_cases hk : k1 = k
    · subst hk
      simp [mapGet, mapSet, hne]
    · simp only [mapSet, if_neg hk]
      by_cases hk2 : k1 = k2
      · simp [mapGet, hk2]
      · simp [mapGet, hk2, ihm]

theorem countSome_set_of_lookup_none {α : Type} {m : List (Str × Option α)} {k : Str}
    (h : (mapGet m k).bind id = none) (v : α) :
    countSome (mapSet m k (some v)) = countSome m + 1 := by
  induction m with
  | nil => simp [mapSet, countSome]
  | cons e rest ihm =>
    obtain ⟨k1, w⟩ := e
    by_cases hk : k1 = k
    · subst hk
      simp [mapGet] at h
      subst h
      simp [mapSet, countSome]
      omega
    · simp only [mapGet, if_neg hk] at h
      simp only [mapSet, if_neg hk, countSome]
      have h2 := ihm h
      omega

theorem countSome_tombstone_of_lookup_some {α : Type} {m : List (Str × Option α)}
    {k : Str} {w : α} (h : mapGet m k = some (some w)) :
    countSome (mapSet m k none) + 1 = countSome m := by
  induction m with
  | nil => simp [mapGet] at h
  | cons e rest ihm =>
    obtain ⟨k1, w1⟩ := e
    by_cases hk : k1 = k
    · subst hk
      simp [mapGet] at h
      subst h
      simp [mapSet, countSome]
      omega
    · simp only [mapGet, if_neg hk] at h
      simp only [mapSet, if_neg hk, countSome]
      have h2 := ihm h
      omega

theorem countSome_overwrite_of_lookup_some {α : Type} {m : List (Str × Option α)}
    {k : Str} {w : α} (v : α) (h : mapGet m k = some (some w)) :
    countSome (mapSet m k (some v)) = countSome m := by
  induction m with
  | nil => simp [mapGet] at h
  | cons e rest ihm =>
    obtain ⟨k1, w1⟩ := e
    by_cases hk : k1 = k
    · subst hk
      simp [mapGet] at h
      subst h
      simp [mapSet, countSome]
    · simp only [mapGet, if_neg hk] at h
      simp only [mapSet, if_neg hk, countSome]
      have h2 := ihm h
      omega

/-! ### Lemmas about the swarm registry -/

theorem getSwarmByKey_mapGet {C : Type} (st : ServerState C) (k : Str) :
    mapGet ((getSwarmByKey st k).2).torrents k = some ((getSwarmByKey st k).1) := by
  unfold getSwarmByKey
  cases h : mapGet st.torrents k with
  | some sw => simpa using h
  | none => simp [mapGet_mapSet_self]

theorem getSwarmByKey_intervalMs {C : Type} (st : ServerState C) (k : Str) :
    ((getSwarmByKey st k).2).intervalMs = st.intervalMs := by
  unfold getSwarmByKey
  cases h : mapGet st.torrents k <;> simp

theorem getSwarmByKey_of_mem {C : Type} {st : ServerState C} {k : Str} {sw : Swarm C}
    (h : mapGet st.torrents k = some sw) : getSwarmByKey st k = (sw, st) := by
  unfold getSwarmByKey
  simp [h]

theorem serverInv_set {C : Type} {st : ServerState C} (h : serverInv st)
    {sw : Swarm C} (hsw : swarmInv sw) (k : Str) :
    serverInv { st with torrents := mapSet st.torrents k sw } := by
  intro k2 sw2 hget
  by_cases hk : k2 = k
  · subst hk
    rw [mapGet_mapSet_self] at hget
    cases hget
    exact hsw
  · rw [mapGet_mapSet_ne _ _ hk] at hget
    exact h k2 sw2 hget

theorem getSwarmByKey_inv {C : Type} {st : ServerState C} (h : serverInv st) (k : Str) :
    swarmInv ((getSwarmByKey st k).1) ∧ serverInv ((getSwarmByKey st k).2) := by
  unfold getSwarmByKey
  cases hget : mapGet st.torrents k with
  | some sw => exact ⟨h k sw hget, h⟩
  | none =>
    refine ⟨by simp [swarmInv, emptySwarm, countSome], ?_⟩
    exact serverInv_set h (by simp [swarmInv, emptySwarm, countSome]) k

/-! ### Lemmas about peer selection -/

theorem getPeersFromSwarm_length {C : Type} :
    ∀ (m : List (Str × Option (Peer C))) (n : Nat),
      (getPeersFromSwarm m n).length = min n (countSome m) := by
  intro m
  induction m with
  | nil => intro n; cases n <;> simp [getPeersFromSwarm, countSome]
  | cons e rest ihm =>
    intro n
    obtain ⟨k, v⟩ := e
    cases n with
    | zero => simp [getPeersFromSwarm]
    | succ n =>
      cases v with
      | none => simp [getPeersFromSwarm, countSome, ihm]
      | some p =>
        simp [getPeersFromSwarm, countSome, ihm n]
        omega

/-! ### The swarm-counter invariant (C1) -/

theorem mapGet_of_peerLookup_some {C : Type} {sw : Swarm C} {p : Str} {q : Peer C}
    (h : peerLookup sw p = some q) : mapGet sw.peers p = some (some q) := by
  unfold peerLookup at h
  cases hm : mapGet sw.peers p with
  | none => rw [hm] at h; simp at h
  | some w => rw [hm] at h; simp at h; rw [h]

theorem swarmInv_insert {C : Type} {sw : Swarm C} (h : swarmInv sw) {p : Str}
    (hp : peerLookup sw p = none) (np : Peer C) {c2 i2 : Int}
    (hsum : c2 + i2 = sw.complete + sw.incomplete + 1) :
    swarmInv { complete := c2, incomplete := i2, peers := mapSet sw.peers p (some np) } := by
  have hp2 : (mapGet sw.peers p).bind id = none := hp
  have hc := countSome_set_of_lookup_none hp2 np
  unfold swarmInv at h ⊢
  simp only at h ⊢
  rw [hc]
  push_cast
  omega

theorem swarmInv_tombstone {C : Type} {sw : Swarm C} (h : swarmInv sw) {p : Str}
    {q : Peer C} (hp : peerLookup sw p = some q) {c2 i2 : Int}
    (hsum : c2 + i2 = sw.complete + sw.incomplete - 1) :
    swarmInv { complete := c2, incomplete := i2, peers := mapSet sw.peers p none } := by
  have hc := countSome_tombstone_of_lookup_some (mapGet_of_peerLookup_some hp)
  unfold swarmInv at h ⊢
  simp only at h ⊢
  omega

theorem swarmInv_overwrite {C : Type} {sw : Swarm C} (h : swarmInv sw) {p : Str}
    {q : Peer C} (hp : peerLookup sw p = some q) (np : Peer C) {c2 i2 : Int}
    (hsum : c2 + i2 = sw.complete + sw.incomplete) :
    swarmInv { complete := c2, incomplete := i2, peers := mapSet sw.peers p (some np) } := by
  have hc := countSome_overwrite_of_lookup_some np (mapGet_of_peerLookup_some hp)
  unfold swarmInv at h ⊢
  simp only at h ⊢
  omega

theorem handleAnnounce_inv {C O : Type} {st : ServerState C} (h : serverInv st)
    (socket : C) (d : AnnounceData O) (infoHash peerId : Str) :
    serverInv ((handleAnnounce st socket d infoHash peerId).1) := by
  obtain ⟨hsw, hst⟩ := getSwarmByKey_inv h infoHash
  simp only [handleAnnounce]
  cases hev : d.event
  case started =>
    cases hp : peerLookup (getSwarmByKey st infoHash).1 peerId
    case none =>
      by_cases hl : d.left = some 0
      · simp only [hl, if_pos, respond]
        exact serverInv_set hst (swarmInv_insert hsw hp _ (by ring)) infoHash
      · simp only [respond, if_neg hl]
        exact serverInv_set hst (swarmInv_insert hsw hp _ (by ring)) infoHash
    case some q => simpa only [respond] using hst
  case stopped =>
    cases hp : peerLookup (getSwarmByKey st infoHash).1 peerId
    case none => simpa only [respond] using hst
    case some q =>
      cases hq : q.complete
      · have hqn : ¬(q.complete = true) := by simp [hq]
        simp only [respond, if_neg hqn]
        exact serverInv_set hst (swarmInv_tombstone hsw hp (by ring)) infoHash
      · simp only [respond, if_pos hq]
        exact serverInv_set hst (swarmInv_tombstone hsw hp (by ring)) infoHash
  case completed =>
    cases hp : peerLookup (getSwarmByKey st infoHash).1 peerId
    case none => simpa only [respond] using hst
    case some q =>
      cases hq : q.complete
      · have hqn : ¬(q.complete = true) := by simp [hq]
        simp only [respond, if_neg hqn]
        exact serverInv_set hst (swarmInv_overwrite hsw hp _ (by ring)) infoHash
      · simpa only [respond, if_pos hq] using hst
  case update =>
    cases hp : peerLookup (getSwarmByKey st infoHash).1 peerId
    case none => simpa only [respond] using hst
    case some q => simpa only [respond] using hst
  case answered =>
    cases hp : peerLookup (getSwarmByKey st infoHash).1 peerId
    case none => simpa only [respond] using hst
    case some q =>
      cases ht : d.to_peer_id
      case none => exact hst
      case some t =>
        by_cases hte : t = []
        · simp only [hte, if_pos]
          exact hst
        · simp only [hte, if_neg]
          cases h2 : peerLookup (getSwarmByKey st infoHash).1 t <;> simpa using hst
  case other => exact hst

theorem onSocketMessage_inv {C O : Type} {st : ServerState C} (h : serverInv st)
    (socket : C) (data : Option (AnnounceData O)) :
    serverInv ((onSocketMessage st socket data).1) := by
  simp only [onSocketMessage]
  repeat' split
  all_goals first
    | exact h
    | exact handleAnnounce_inv h _ _ _ _

theorem serverInit_inv {C : Type} : serverInv (serverInit (C := C)) := by
  intro k sw hget
  simp [serverInit, mapGet] at hget

theorem runServer_inv {C O : Type} :
    ∀ (msgs : List (C × Option (AnnounceData O))) (st : ServerState C),
      serverInv st → serverInv (runServer st msgs) := by
  intro msgs
  induction msgs with
  | nil => intro st h; exact h
  | cons m rest ihm =>
    intro st h
    exact ihm _ (onSocketMessage_inv h m.1 m.2)

/-- C1: starting from a fresh server (every swarm is created with counters
zero and an empty peers map), after any sequence of handled announce
messages every swarm in the registry satisfies complete + incomplete =
number of peer entries currently present with non-null values. -/
theorem c1_counters_match_live_peers {C O : Type}
    (msgs : List (C × Option (AnnounceData O))) (k : Str) (sw : Swarm C)
    (h : mapGet (runServer serverInit msgs).torrents k = some sw) :
    sw.complete + sw.incomplete = countSome sw.peers :=
  runServer_inv msgs serverInit serverInit_inv k sw h

/-- Witness for C1 at a concrete one-message trace. -/
theorem c1_counters_match_live_peers_witness :
    mapGet (runServer (C := Nat) (O := Nat) serverInit [(0, some msgStartP)]).torrents hashH
        = some { complete := 1, incomplete := 0,
                 peers := [(pidP, some { socket := 0, peerId := pidP, complete := false })] }
      ∧ (1 : Int) + 0 = countSome [(pidP, some (Peer.mk (0 : Nat) pidP false))] :=
  ⟨by decide,
   c1_counters_match_live_peers [(0, some msgStartP)] hashH
     { complete := 1, incomplete := 0,
       peers := [(pidP, some { socket := 0, peerId := pidP, complete := false })] }
     (by decide)⟩

/-! ### Validated unfolding of the message handler -/

theorem onSocketMessage_valid {C O : Type} (st : ServerState C) (socket : C)
    (d : AnnounceData O) {infoHash rawPeerId : Str}
    (hi : d.info_hash = some infoHash) (hlen : infoHash.length = 20)
    (hp : d.peer_id = some rawPeerId) (hplen : (binaryToUtf8 rawPeerId).length = 20) :
    onSocketMessage st socket (some d)
      = handleAnnounce st socket d infoHash (binaryToUtf8 rawPeerId) := by
  have hne : infoHash ≠ [] := by intro e; rw [e] at hlen; simp at hlen
  have hpne : binaryToUtf8 rawPeerId ≠ [] := by intro e; rw [e] at hplen; simp at hplen
  simp only [onSocketMessage, hi, hp]
  rw [if_neg hne, if_neg (by simp [hlen]), if_neg hpne, if_neg (by simp [hplen])]

/-! ### Shape of the accepted started and stopped transitions -/

theorem handleAnnounce_started_accept {C O : Type} (st : ServerState C) (c : C)
    (d : AnnounceData O) (ih p : Str) (he : d.event = .started)
    (habs : peerLookup (getSwarmByKey st ih).1 p = none) :
    ∃ swB : Swarm C,
      (handleAnnounce st c d ih p).1
          = { (getSwarmByKey st ih).2 with
              torrents := mapSet ((getSwarmByKey st ih).2).torrents ih swB }
      ∧ swB.peers = mapSet ((getSwarmByKey st ih).1).peers p
            (some { socket := c, peerId := p, complete := false })
      ∧ swB.complete + swB.incomplete
          = (getSwarmByKey st ih).1.complete + (getSwarmByKey st ih).1.incomplete + 1
      ∧ Effect.emitEvent .start ∈ (handleAnnounce st c d ih p).2 := by
  by_cases hl : d.left = some 0
  · refine ⟨{ complete := (getSwarmByKey st ih).1.complete + 1,
              incomplete := (getSwarmByKey st ih).1.incomplete,
              peers := mapSet ((getSwarmByKey st ih).1).peers p
                  (some { socket := c, peerId := p, complete := false }) },
      ?_, rfl, by ring, ?_⟩
    · simp only [handleAnnounce, he, habs, if_pos hl, respond]
    · simp only [handleAnnounce, he, habs, if_pos hl, respond]
      simp
  · refine ⟨{ complete := (getSwarmByKey st ih).1.complete,
              incomplete := (getSwarmByKey st ih).1.incomplete + 1,
              peers := mapSet ((getSwarmByKey st ih).1).peers p
                  (some { socket := c, peerId := p, complete := false }) },
      ?_, rfl, by ring, ?_⟩
    · simp only [handleAnnounce, he, habs, respond, if_neg hl]
    · simp only [handleAnnounce, he, habs, respond, if_neg hl]
      simp

theorem handleAnnounce_stopped_present {C O : Type} (st : ServerState C) (c : C)
    (d : AnnounceData O) (ih p : Str) (he : d.event = .stopped) {q : Peer C}
    (hq : peerLookup (getSwarmByKey st ih).1 p = some q) :
    ∃ swB : Swarm C,
      (handleAnnounce st c d ih p).1
          = { (getSwarmByKey st ih).2 with
              torrents := mapSet ((getSwarmByKey st ih).2).torrents ih swB }
      ∧ swB.peers = mapSet ((getSwarmByKey st ih).1).peers p none
      ∧ swB.complete + swB.incomplete
          = (getSwarmByKey st ih).1.complete + (getSwarmByKey st ih).1.incomplete - 1 := by
  cases hqc : q.complete
  · have hqn : ¬(q.complete = true) := by simp [hqc]
    refine ⟨{ complete := (getSwarmByKey st ih).1.complete,
              incomplete := (getSwarmByKey st ih).1.incomplete - 1,
              peers := mapSet ((getSwarmByKey st ih).1).peers p none },
      ?_, rfl, by ring⟩
    simp only [handleAnnounce, he, hq, respond, if_neg hqn]
  · refine ⟨{ complete := (getSwarmByKey st ih).1.complete - 1,
              incomplete := (getSwarmByKey st ih).1.incomplete,
              peers := mapSet ((getSwarmByKey st ih).1).peers p none },
      ?_, rfl, by ring⟩
    simp only [handleAnnounce, he, hq, respond, if_pos hqc]

/-! ### The stop and complete accounting boundary (C2) -/

/-- C2: evaluation of the code at the failing input. A peer that announces
started with left zero is counted in complete, but its entry is not marked
complete; its later completed announce then increments complete and
decrements incomplete unconditionally, driving incomplete to minus one —
the counter is not kept non-negative. -/
theorem c2_incomplete_goes_negative :
    (mapGet (runServer (C := Nat) (O := Nat) serverInit
        [(0, some msgStartP), (0, some msgCompP)]).torrents hashH).map
      (fun sw => (sw.complete, sw.incomplete)) = some ((2 : Int), (-1 : Int)) := by
  decide

/-! ### Started-then-stopped round trip (C3) -/

/-- C3 counterexample: the pair started-then-stopped is not sum-neutral when
the peer id is already in the swarm at the start of the pair — the duplicate
started is skipped with a warning, but the stopped still removes the
pre-existing entry, so the sum drops from one to zero. -/
theorem c3_counterexample :
    (mapGet (runServer (C := Nat) (O := Nat) serverInit
        [(0, some msgStartP)]).torrents hashH).map
      (fun sw => sw.complete + sw.incomplete) = some 1
    ∧ (mapGet (runServer (C := Nat) (O := Nat) serverInit
        [(0, some msgStartP), (1, some msgStartP), (1, some msgStopP)]).torrents hashH).map
      (fun sw => sw.complete + sw.incomplete) = some 0 := by
  decide

/-- C3 (amended): provided the peer id is not currently present in the swarm
when the started announce arrives, a valid started followed by a valid
stopped for the same peer id leaves complete + incomplete at its value
before the pair, and a subsequent started announce for the same id is then
accepted: it emits the start event and creates a fresh peer entry holding
the new connection, rather than being treated as a duplicate. -/
theorem c3_start_stop_roundtrip {C O : Type} (st : ServerState C)
    (c1 c2 c3 : C) (d1 d2 : AnnounceData O) (infoHash rawPeerId : Str)
    (h1i : d1.info_hash = some infoHash) (hlen : infoHash.length = 20)
    (h1p : d1.peer_id = some rawPeerId)
    (hplen : (binaryToUtf8 rawPeerId).length = 20)
    (h1e : d1.event = .started)
    (h2i : d2.info_hash = some infoHash) (h2p : d2.peer_id = some rawPeerId)
    (h2e : d2.event = .stopped)
    (habs : peerLookup (getSwarmByKey st infoHash).1 (binaryToUtf8 rawPeerId) = none) :
    swarmSum ((onSocketMessage (onSocketMessage st c1 (some d1)).1 c2 (some d2)).1) infoHash
        = swarmSum st infoHash
    ∧ peerLookup
        (getSwarmByKey
          ((onSocketMessage (onSocketMessage st c1 (some d1)).1 c2 (some d2)).1)
          infoHash).1 (binaryToUtf8 rawPeerId) = none
    ∧ Effect.emitEvent .start ∈
        (onSocketMessage
          ((onSocketMessage (onSocketMessage st c1 (some d1)).1 c2 (some d2)).1)
          c3 (some d1)).2
    ∧ peerLookup
        (getSwarmByKey
          ((onSocketMessage
            ((onSocketMessage (onSocketMessage st c1 (some d1)).1 c2 (some d2)).1)
            c3 (some d1)).1) infoHash).1 (binaryToUtf8 rawPeerId)
        = some { socket := c3, peerId := binaryToUtf8 rawPeerId, complete := false } := by
  rw [onSocketMessage_valid st c1 d1 h1i hlen h1p hplen]
  obtain ⟨swB, hst1, hBpeers, hBsum, _⟩ :=
    handleAnnounce_started_accept st c1 d1 infoHash (binaryToUtf8 rawPeerId) h1e habs
  rw [hst1]
  set st1 : ServerState C :=
    { (getSwarmByKey st infoHash).2 with
      torrents := mapSet ((getSwarmByKey st infoHash).2).torrents infoHash swB } with hst1def
  have hget1 : mapGet st1.torrents infoHash = some swB := mapGet_mapSet_self _ _ _
  have hgs1 : getSwarmByKey st1 infoHash = (swB, st1) := getSwarmByKey_of_mem hget1
  have hlook1 : peerLookup swB (binaryToUtf8 rawPeerId)
      = some { socket := c1, peerId := binaryToUtf8 rawPeerId, complete := false } := by
    unfold peerLookup
    rw [hBpeers, mapGet_mapSet_self]
    rfl
  rw [onSocketMessage_valid st1 c2 d2 h2i hlen h2p hplen]
  obtain ⟨swC, hst2, hCpeers, hCsum⟩ :=
    handleAnnounce_stopped_present st1 c2 d2 infoHash (binaryToUtf8 rawPeerId) h2e
      (q := { socket := c1, peerId := binaryToUtf8 rawPeerId, complete := false })
      (by rw [hgs1]; exact hlook1)
  rw [hst2, hgs1]
  set st2 : ServerState C :=
    { st1 with torrents := mapSet st1.torrents infoHash swC } with hst2def
  have hget2 : mapGet st2.torrents infoHash = some swC := mapGet_mapSet_self _ _ _
  have hgs2 : getSwarmByKey st2 infoHash = (swC, st2) := getSwarmByKey_of_mem hget2
  have hlook2 : peerLookup swC (binaryToUtf8 rawPeerId) = none := by
    unfold peerLookup
    rw [hCpeers, mapGet_mapSet_self]
    rfl
  refine ⟨?_, ?_, ?_, ?_⟩
  · unfold swarmSum
    rw [hgs1] at hCsum
    rw [hgs2]
    simp only at hCsum ⊢
    omega
  · rw [hgs2]
    exact hlook2
  · rw [onSocketMessage_valid st2 c3 d1 h1i hlen h1p hplen]
    obtain ⟨swD, hst3, hDpeers, hDsum, hmem⟩ :=
      handleAnnounce_started_accept st2 c3 d1 infoHash (binaryToUtf8 rawPeerId) h1e
        (by rw [hgs2]; exact hlook2)
    exact hmem
  · rw [onSocketMessage_valid st2 c3 d1 h1i hlen h1p hplen]
    obtain ⟨swD, hst3, hDpeers, hDsum, hmem⟩ :=
      handleAnnounce_started_accept st2 c3 d1 infoHash (binaryToUtf8 rawPeerId) h1e
        (by rw [hgs2]; exact hlook2)
    rw [hst3]
    have hget3 : mapGet (mapSet ((getSwarmByKey st2 infoHash).2).torrents infoHash swD)
        infoHash = some swD := mapGet_mapSet_self _ _ _
    have hgs3 : getSwarmByKey
        { (getSwarmByKey st2 infoHash).2 with
          torrents := mapSet ((getSwarmByKey st2 infoHash).2).torrents infoHash swD }
        infoHash
        = (swD, { (getSwarmByKey st2 infoHash).2 with
            torrents := mapSet ((getSwarmByKey st2 infoHash).2).torrents infoHash swD }) :=
      getSwarmByKey_of_mem hget3
    rw [hgs3]
    unfold peerLookup
    rw [hDpeers, mapGet_mapSet_self]
    rfl

/-- Witness for C3 (amended) at a concrete trace: a fresh server, started
from pidP, stopped from pidP, then started again from a third connection. -/
theorem c3_start_stop_roundtrip_witness :
    swarmSum ((onSocketMessage
        (onSocketMessage (C := Nat) (O := Nat) serverInit 0 (some msgStartP)).1
        1 (some msgStopP)).1) hashH
      = swarmSum (serverInit (C := Nat)) hashH :=
  (c3_start_stop_roundtrip serverInit 0 1 2 msgStartP msgStopP hashH pidP
    rfl (by decide) rfl (by decide) rfl rfl rfl rfl (by decide)).1

/-! ### Duplicate started leaves the stored entry untouched (C10) -/

/-- C10: a started announce for a peer id already present in the swarm
leaves the server state entirely unchanged — in particular the stored Peer
entry with its connection handle survives and the connection carried by the
duplicate announce does not replace it — and the response carries the
duplicate warning. -/
theorem c10_duplicate_started_keeps_entry {C O : Type} (st : ServerState C)
    (conn : C) (d : AnnounceData O) (infoHash rawPeerId : Str) (sw : Swarm C)
    (q : Peer C)
    (hi : d.info_hash = some infoHash) (hlen : infoHash.length = 20)
    (hp : d.peer_id = some rawPeerId) (hplen : (binaryToUtf8 rawPeerId).length = 20)
    (he : d.event = .started)
    (hsw : mapGet st.torrents infoHash = some sw)
    (hq : peerLookup sw (binaryToUtf8 rawPeerId) = some q) :
    (onSocketMessage st conn (some d)).1 = st
    ∧ peerLookup (getSwarmByKey (onSocketMessage st conn (some d)).1 infoHash).1
        (binaryToUtf8 rawPeerId) = some q
    ∧ ((onSocketMessage st conn (some d)).2).head?
        = some (.send conn (.response sw.complete sw.incomplete st.intervalMs
            (some .startedAlreadyInSwarm))) := by
  rw [onSocketMessage_valid st conn d hi hlen hp hplen]
  have hgs : getSwarmByKey st infoHash = (sw, st) := getSwarmByKey_of_mem hsw
  simp [handleAnnounce, hgs, he, hq, respond]

/-- Witness for C10: the duplicate started for pidP on a new connection 5
leaves stPQ unchanged and the original entry (connection 0) in place. -/
theorem c10_duplicate_started_keeps_entry_witness :
    (onSocketMessage (O := Nat) stPQ 5 (some msgStartP)).1 = stPQ
    ∧ peerLookup (getSwarmByKey (onSocketMessage (O := Nat) stPQ 5 (some msgStartP)).1 hashH).1
        (binaryToUtf8 pidP) = some { socket := 0, peerId := pidP, complete := false }
    ∧ ((onSocketMessage (O := Nat) stPQ 5 (some msgStartP)).2).head?
        = some (.send 5 (.response swarmPQ.complete swarmPQ.incomplete stPQ.intervalMs
            (some .startedAlreadyInSwarm))) :=
  c10_duplicate_started_keeps_entry stPQ 5 msgStartP hashH pidP swarmPQ
    { socket := 0, peerId := pidP, complete := false }
    rfl (by decide) rfl (by decide) rfl (by decide) (by decide)

/-! ### Second completed is a warned no-op (C7) -/

/-- C7: a completed announce from a peer already marked complete leaves the
server state (counters and peer entry) unchanged and the response sent back
carries the already-complete warning message instead of applying the
transition. -/
theorem c7_second_completed_noop {C O : Type} (st : ServerState C)
    (conn : C) (d : AnnounceData O) (infoHash rawPeerId : Str) (sw : Swarm C)
    (q : Peer C)
    (hi : d.info_hash = some infoHash) (hlen : infoHash.length = 20)
    (hp : d.peer_id = some rawPeerId) (hplen : (binaryToUtf8 rawPeerId).length = 20)
    (he : d.event = .completed)
    (hsw : mapGet st.torrents infoHash = some sw)
    (hq : peerLookup sw (binaryToUtf8 rawPeerId) = some q)
    (hqc : q.complete = true) :
    (onSocketMessage st conn (some d)).1 = st
    ∧ ((onSocketMessage st conn (some d)).2).head?
        = some (.send conn (.response sw.complete sw.incomplete st.intervalMs
            (some .completedAlreadyComplete))) := by
  rw [onSocketMessage_valid st conn d hi hlen hp hplen]
  have hgs : getSwarmByKey st infoHash = (sw, st) := getSwarmByKey_of_mem hsw
  simp [handleAnnounce, hgs, he, hq, respond, if_pos hqc]

/-- Witness for C7: a second completed from the already complete pidP. -/
theorem c7_second_completed_noop_witness :
    (onSocketMessage (O := Nat) stPdone 0 (some msgCompP)).1 = stPdone
    ∧ ((onSocketMessage (O := Nat) stPdone 0 (some msgCompP)).2).head?
        = some (.send 0 (.response swarmPdone.complete swarmPdone.incomplete
            stPdone.intervalMs (some .completedAlreadyComplete))) :=
  c7_second_completed_noop stPdone 0 msgCompP hashH pidP swarmPdone
    { socket := 0, peerId := pidP, complete := true }
    rfl (by decide) rfl (by decide) rfl (by decide) (by decide) (by decide)

/-! ### The answered relay short-circuit (C6) -/

/-- C6: for a valid answered announce from a peer present in the swarm, the
three routing cases — invalid target id yields the error response, a present
target receives the raw answer payload on its own connection with no
standard response to the sender, and an unknown target yields only a
warning with no message to anyone; in every case the generic response path
(and hence the peer-introduction tail) never runs, and the swarm state is
untouched. -/
theorem c6_answered_relay {C O : Type} (st : ServerState C)
    (conn : C) (d : AnnounceData O) (infoHash rawPeerId : Str) (sw : Swarm C)
    (q : Peer C)
    (hi : d.info_hash = some infoHash) (hlen : infoHash.length = 20)
    (hp : d.peer_id = some rawPeerId) (hplen : (binaryToUtf8 rawPeerId).length = 20)
    (he : d.event = .answered)
    (hsw : mapGet st.torrents infoHash = some sw)
    (hq : peerLookup sw (binaryToUtf8 rawPeerId) = some q) :
    (d.to_peer_id = none →
      onSocketMessage st conn (some d)
        = (st, [.send conn (.failure .invalidToPeerId), .emitWarning .invalidToPeerId]))
    ∧ (d.to_peer_id = some [] →
      onSocketMessage st conn (some d)
        = (st, [.send conn (.failure .invalidToPeerId), .emitWarning .invalidToPeerId]))
    ∧ (∀ t q2, d.to_peer_id = some t → t ≠ [] → peerLookup sw t = some q2 →
      onSocketMessage st conn (some d)
        = (st, [.send q2.socket (.rawAnswer d.answer), .emitEvent .answer]))
    ∧ (∀ t, d.to_peer_id = some t → t ≠ [] → peerLookup sw t = none →
      onSocketMessage st conn (some d) = (st, [.emitWarning .noPeerWithToPeerId])) := by
  rw [onSocketMessage_valid st conn d hi hlen hp hplen]
  have hgs : getSwarmByKey st infoHash = (sw, st) := getSwarmByKey_of_mem hsw
  refine ⟨?_, ?_, ?_, ?_⟩
  · intro ht
    simp [handleAnnounce, hgs, he, hq, ht, errorEff]
  · intro ht
    simp [handleAnnounce, hgs, he, hq, ht, errorEff]
  · intro t q2 ht htne hqt
    simp [handleAnnounce, hgs, he, hq, ht, hqt, htne, errorEff]
  · intro t ht htne hqt
    simp [handleAnnounce, hgs, he, hq, ht, hqt, htne, errorEff]

/-- Witness for C6: pidP relays an answer to the present pidQ; the raw
payload goes to connection 1 and no standard response is produced. -/
theorem c6_answered_relay_witness :
    onSocketMessage (O := Nat) stPQ 0 (some msgAnsP)
      = (stPQ, [.send 1 (.rawAnswer (some [97])), .emitEvent .answer]) :=
  (c6_answered_relay stPQ 0 msgAnsP hashH pidP swarmPQ
      { socket := 0, peerId := pidP, complete := false }
      rfl (by decide) rfl (by decide) rfl (by decide) (by decide)).2.2.1
    pidQ { socket := 1, peerId := pidQ, complete := false }
    rfl (by decide) (by decide)

/-! ### Validation failures (C5) -/

/-- C5 counterexample: a syntactically well-formed announce carrying an
unrecognized event is rejected with the error response, yet it does mutate
the registry — the swarm lookup has already lazily created and stored an
empty swarm for the fresh info hash before the switch rejects the event. -/
theorem c5_counterexample :
    (onSocketMessage (C := Nat) (O := Nat) serverInit 0 (some msgBadEvent)).1 ≠ serverInit
    ∧ (onSocketMessage (C := Nat) (O := Nat) serverInit 0 (some msgBadEvent)).2
        = [.send 0 (.failure .invalidEvent), .emitWarning .invalidEvent] := by
  decide

/-- C5 (amended): every message failing validation — unparseable payload,
missing or wrong-length info hash, missing or wrong-length decoded peer id,
or an unrecognized event — produces exactly one failure response to the
originating connection followed by one non-fatal warning emission and
nothing else (no Response, no introductions, no close), and performs no
swarm-state mutation beyond, in the unrecognized-event case only, lazily
creating the empty swarm entry for the announced info hash when absent (no
existing swarm is modified). -/
theorem c5_validation_failure {C O : Type} (st : ServerState C) (conn : C)
    (data : Option (AnnounceData O)) (hfail : failsValidation data = true) :
    (∃ m, (onSocketMessage st conn data).2
        = [.send conn (.failure m), .emitWarning m])
    ∧ ((onSocketMessage st conn data).1 = st
       ∨ ∃ d infoHash, data = some d ∧ d.info_hash = some infoHash
           ∧ d.event = .other
           ∧ (onSocketMessage st conn data).1 = (getSwarmByKey st infoHash).2) := by
  cases data with
  | none => exact ⟨⟨.invalidSocketMessage, rfl⟩, Or.inl rfl⟩
  | some d =>
    cases hih : d.info_hash with
    | none =>
      refine ⟨⟨.invalidInfoHash, ?_⟩, Or.inl ?_⟩ <;> simp [onSocketMessage, hih, errorEff]
    | some infoHash =>
      by_cases h1 : infoHash = []
      · refine ⟨⟨.invalidInfoHash, ?_⟩, Or.inl ?_⟩ <;>
          simp [onSocketMessage, hih, h1, errorEff]
      · by_cases h2 : infoHash.length = 20
        · cases hpid : d.peer_id with
          | none =>
            refine ⟨⟨.invalidPeerId, ?_⟩, Or.inl ?_⟩ <;>
              simp [onSocketMessage, hih, hpid, h1, h2, errorEff]
          | some rawPeerId =>
            by_cases h3 : binaryToUtf8 rawPeerId = []
            · refine ⟨⟨.invalidPeerId, ?_⟩, Or.inl ?_⟩ <;>
                simp [onSocketMessage, hih, hpid, h1, h2, h3, errorEff]
            · by_cases h4 : (binaryToUtf8 rawPeerId).length = 20
              · have hev : d.event = .other := by
                  cases he2 : d.event <;>
                    simp [failsValidation, hih, hpid, h1, h2, h3, h4, he2] at hfail <;>
                    rfl
                rw [onSocketMessage_valid st conn d hih h2 hpid h4]
                refine ⟨⟨.invalidEvent, ?_⟩,
                  Or.inr ⟨d, infoHash, rfl, hih, hev, ?_⟩⟩ <;>
                  simp [handleAnnounce, hev, errorEff]
              · refine ⟨⟨.invalidPeerId, ?_⟩, Or.inl ?_⟩ <;>
                  simp [onSocketMessage, hih, hpid, h1, h2, h3, h4, errorEff]
        · refine ⟨⟨.invalidInfoHash, ?_⟩, Or.inl ?_⟩ <;>
            simp [onSocketMessage, hih, h1, h2, errorEff]

/-- Witness for C5 (amended) on the unrecognized-event input. -/
theorem c5_validation_failure_witness :
    (∃ m, (onSocketMessage (C := Nat) (O := Nat) serverInit 0 (some msgBadEvent)).2
        = [.send 0 (.failure m), .emitWarning m])
    ∧ ((onSocketMessage (C := Nat) (O := Nat) serverInit 0 (some msgBadEvent)).1 = serverInit
       ∨ ∃ d infoHash, some msgBadEvent = some d ∧ d.info_hash = some infoHash
           ∧ d.event = .other
           ∧ (onSocketMessage (C := Nat) (O := Nat) serverInit 0 (some msgBadEvent)).1
               = (getSwarmByKey serverInit infoHash).2) :=
  c5_validation_failure serverInit 0 (some msgBadEvent) (by decide)

/-! ### Peer introduction (C4) -/

theorem introSends_append {C O : Type} (a b : List (Effect C O)) :
    introSends (a ++ b) = introSends a ++ introSends b := by
  simp [introSends]

theorem introSends_map_intro {C O : Type} (l : List (Peer C × O)) (pid : Str) :
    introSends (l.map fun q => Effect.send q.1.socket (.intro q.2 pid))
      = l.map fun q => Effect.send q.1.socket (.intro q.2 pid) := by
  induction l with
  | nil => rfl
  | cons x rest ihm =>
    simp only [List.map_cons, introSends, List.filter_cons] at ihm ⊢
    simp [ihm]

theorem introSends_introList {C O : Type} (sel : List (Peer C)) (off : List O)
    (pid : Str) : introSends (introList sel off pid) = introList sel off pid := by
  unfold introList
  exact introSends_map_intro (sel.zip off) pid

theorem introList_length {C O : Type} (m : List (Str × Option (Peer C)))
    (numWant : Nat) (offersL : List O) (pid : Str) (h : numWant ≤ offersL.length) :
    (introList (getPeersFromSwarm m numWant) offersL pid).length
      = min numWant (countSome m) := by
  simp [introList, List.length_zip, getPeersFromSwarm_length]
  omega

theorem numWant_le_offers {O : Type} (offers : Option (List O)) :
    min ((offers.map List.length).getD 0) MAX_ANNOUNCE_PEERS
      ≤ (offers.getD []).length := by
  cases offers <;> simp [MAX_ANNOUNCE_PEERS]

/-- C4: for every validated announce that reaches the peer-introduction tail
of the handler, the effect list is the branch preamble, then the single
Response to the announcer, then exactly the introduction pushes: the push at
ordinal position i goes to the selected peer at position i over that peer
own connection and carries the offer at index i and the announcing peer id;
the number of pushes is min(number of offers, 20) further capped by the
number of non-tombstoned peers of the (post-transition) swarm, and when no
offers are supplied there are no pushes at all. -/
theorem c4_peer_introduction {C O : Type} (st : ServerState C) (conn : C)
    (d : AnnounceData O) (infoHash rawPeerId : Str)
    (hi : d.info_hash = some infoHash) (hlen : infoHash.length = 20)
    (hp : d.peer_id = some rawPeerId) (hplen : (binaryToUtf8 rawPeerId).length = 20)
    (hbranch : reachesResponse d
        (peerLookup (getSwarmByKey st infoHash).1 (binaryToUtf8 rawPeerId)) = true) :
    ∃ sw2 pre w,
      mapGet ((onSocketMessage st conn (some d)).1).torrents infoHash = some sw2
      ∧ (onSocketMessage st conn (some d)).2
          = pre ++ [.send conn (.response sw2.complete sw2.incomplete st.intervalMs w)]
              ++ introList
                  (getPeersFromSwarm sw2.peers
                    (min ((d.offers.map List.length).getD 0) MAX_ANNOUNCE_PEERS))
                  (d.offers.getD []) (binaryToUtf8 rawPeerId)
      ∧ introSends ((onSocketMessage st conn (some d)).2)
          = introList
              (getPeersFromSwarm sw2.peers
                (min ((d.offers.map List.length).getD 0) MAX_ANNOUNCE_PEERS))
              (d.offers.getD []) (binaryToUtf8 rawPeerId)
      ∧ (introList
            (getPeersFromSwarm sw2.peers
              (min ((d.offers.map List.length).getD 0) MAX_ANNOUNCE_PEERS))
            (d.offers.getD []) (binaryToUtf8 rawPeerId)).length
          = min (min ((d.offers.map List.length).getD 0) MAX_ANNOUNCE_PEERS)
              (countSome sw2.peers)
      ∧ (d.offers = none → introSends ((onSocketMessage st conn (some d)).2) = []) := by
  rw [onSocketMessage_valid st conn d hi hlen hp hplen]
  suffices h : ∃ sw2 pre w,
      mapGet ((handleAnnounce st conn d infoHash (binaryToUtf8 rawPeerId)).1).torrents
          infoHash = some sw2
      ∧ introSends (pre : List (Effect C O)) = []
      ∧ (handleAnnounce st conn d infoHash (binaryToUtf8 rawPeerId)).2
          = pre ++ [.send conn (.response sw2.complete sw2.incomplete st.intervalMs w)]
              ++ introList
                  (getPeersFromSwarm sw2.peers
                    (min ((d.offers.map List.length).getD 0) MAX_ANNOUNCE_PEERS))
                  (d.offers.getD []) (binaryToUtf8 rawPeerId) by
    obtain ⟨sw2, pre, w, h1, h2, h3⟩ := h
    have hintro : introSends (handleAnnounce st conn d infoHash
            (binaryToUtf8 rawPeerId)).2
        = introList
            (getPeersFromSwarm sw2.peers
              (min ((d.offers.map List.length).getD 0) MAX_ANNOUNCE_PEERS))
            (d.offers.getD []) (binaryToUtf8 rawPeerId) := by
      rw [h3, introSends_append, introSends_append, h2, introSends_introList]
      simp [introSends]
    refine ⟨sw2, pre, w, h1, h3, hintro, ?_, ?_⟩
    · exact introList_length _ _ _ _ (numWant_le_offers d.offers)
    · intro ho
      rw [hintro]
      simp [ho, introList, getPeersFromSwarm, MAX_ANNOUNCE_PEERS]
  cases hev : d.event
  case started =>
    cases hpeer : peerLookup (getSwarmByKey st infoHash).1 (binaryToUtf8 rawPeerId)
    case none =>
      by_cases hl : d.left = some 0
      · simp only [handleAnnounce, hev, hpeer, if_pos hl, respond]
        refine ⟨_, [.emitEvent .start], none, mapGet_mapSet_self _ _ _, rfl, ?_⟩
        rw [getSwarmByKey_intervalMs]
      · simp only [handleAnnounce, hev, hpeer, respond, if_neg hl]
        refine ⟨_, [.emitEvent .start], none, mapGet_mapSet_self _ _ _, rfl, ?_⟩
        rw [getSwarmByKey_intervalMs]
    case some q =>
      simp only [handleAnnounce, hev, hpeer, respond]
      refine ⟨_, [], some .startedAlreadyInSwarm, getSwarmByKey_mapGet st infoHash,
        rfl, ?_⟩
      rw [getSwarmByKey_intervalMs]
  case stopped =>
    cases hpeer : peerLookup (getSwarmByKey st infoHash).1 (binaryToUtf8 rawPeerId)
    case none =>
      simp only [handleAnnounce, hev, hpeer, respond]
      refine ⟨_, [], some .stoppedNotInSwarm, getSwarmByKey_mapGet st infoHash,
        rfl, ?_⟩
      rw [getSwarmByKey_intervalMs]
    case some q =>
      cases hqc : q.complete
      · have hqn : ¬(q.complete = true) := by simp [hqc]
        simp only [handleAnnounce, hev, hpeer, respond, if_neg hqn]
        refine ⟨_, [.emitEvent .stop], none, mapGet_mapSet_self _ _ _, rfl, ?_⟩
        rw [getSwarmByKey_intervalMs]
      · simp only [handleAnnounce, hev, hpeer, respond, if_pos hqc]
        refine ⟨_, [.emitEvent .stop], none, mapGet_mapSet_self _ _ _, rfl, ?_⟩
        rw [getSwarmByKey_intervalMs]
  case completed =>
    cases hpeer : peerLookup (getSwarmByKey st infoHash).1 (binaryToUtf8 rawPeerId)
    case none =>
      simp only [handleAnnounce, hev, hpeer, respond]
      refine ⟨_, [], some .completedNotInSwarm, getSwarmByKey_mapGet st infoHash,
        rfl, ?_⟩
      rw [getSwarmByKey_intervalMs]
    case some q =>
      cases hqc : q.complete
      · have hqn : ¬(q.complete = true) := by simp [hqc]
        simp only [handleAnnounce, hev, hpeer, respond, if_neg hqn]
        refine ⟨_, [.emitEvent .complete], none, mapGet_mapSet_self _ _ _, rfl, ?_⟩
        rw [getSwarmByKey_intervalMs]
      · simp only [handleAnnounce, hev, hpeer, respond, if_pos hqc]
        refine ⟨_, [], some .completedAlreadyComplete, getSwarmByKey_mapGet st infoHash,
          rfl, ?_⟩
        rw [getSwarmByKey_intervalMs]
  case update =>
    cases hpeer : peerLookup (getSwarmByKey st infoHash).1 (binaryToUtf8 rawPeerId)
    case none =>
      simp only [handleAnnounce, hev, hpeer, respond]
      refine ⟨_, [], some .updateNotInSwarm, getSwarmByKey_mapGet st infoHash,
        rfl, ?_⟩
      rw [getSwarmByKey_intervalMs]
    case some q =>
      simp only [handleAnnounce, hev, hpeer, respond]
      refine ⟨_, [.emitEvent .update], none, getSwarmByKey_mapGet st infoHash,
        rfl, ?_⟩
      rw [getSwarmByKey_intervalMs]
  case answered =>
    cases hpeer : peerLookup (getSwarmByKey st infoHash).1 (binaryToUtf8 rawPeerId)
    case none =>
      simp only [handleAnnounce, hev, hpeer, respond]
      refine ⟨_, [], some .answeredNotInSwarm, getSwarmByKey_mapGet st infoHash,
        rfl, ?_⟩
      rw [getSwarmByKey_intervalMs]
    case some q =>
      simp [reachesResponse, hev, hpeer] at hbranch
  case other =>
    simp [reachesResponse, hev] at hbranch

/-- Witness for C4: an update announce from the present pidP with two
offers against a swarm of two live peers yields exactly two introduction
pushes. -/
theorem c4_peer_introduction_witness :
    ∃ sw2 pre w,
      mapGet ((onSocketMessage (O := Nat) stPQ 0 (some msgUpdP)).1).torrents hashH
          = some sw2
      ∧ (onSocketMessage (O := Nat) stPQ 0 (some msgUpdP)).2
          = pre ++ [.send 0 (.response sw2.complete sw2.incomplete stPQ.intervalMs w)]
              ++ introList
                  (getPeersFromSwarm sw2.peers
                    (min ((msgUpdP.offers.map List.length).getD 0) MAX_ANNOUNCE_PEERS))
                  (msgUpdP.offers.getD []) (binaryToUtf8 pidP)
      ∧ introSends ((onSocketMessage (O := Nat) stPQ 0 (some msgUpdP)).2)
          = introList
              (getPeersFromSwarm sw2.peers
                (min ((msgUpdP.offers.map List.length).getD 0) MAX_ANNOUNCE_PEERS))
              (msgUpdP.offers.getD []) (binaryToUtf8 pidP)
      ∧ (introList
            (getPeersFromSwarm sw2.peers
              (min ((msgUpdP.offers.map List.length).getD 0) MAX_ANNOUNCE_PEERS))
            (msgUpdP.offers.getD []) (binaryToUtf8 pidP)).length
          = min (min ((msgUpdP.offers.map List.length).getD 0) MAX_ANNOUNCE_PEERS)
              (countSome sw2.peers)
      ∧ (msgUpdP.offers = none →
          introSends ((onSocketMessage (O := Nat) stPQ 0 (some msgUpdP)).2) = []) :=
  c4_peer_introduction stPQ 0 msgUpdP hashH pidP
    rfl (by decide) rfl (by decide) (by decide)

/-! ### Hex and binary info hash forms resolve to one swarm (C8) -/

theorem hexVal_hexChar {d : Nat} (h : d < 16) : hexVal (hexChar d) = some d := by
  unfold hexVal hexChar
  by_cases h10 : d < 10
  · rw [if_pos h10, if_pos (by omega)]
    congr 1
    omega
  · rw [if_neg h10, if_neg (by intro hc; omega), if_pos (by omega)]
    congr 1
    omega

theorem hexDecode_hexEncode (bs : List Nat) (h : ∀ b ∈ bs, b < 256) :
    hexDecodeBytes (hexEncode bs) = bs := by
  induction bs with
  | nil => rfl
  | cons b rest ihm =>
    have hb : b < 256 := h b (by simp)
    have h1 : b / 16 < 16 := by omega
    have h2 : b % 16 < 16 := by omega
    simp only [hexEncode, hexDecodeBytes, hexVal_hexChar h1, hexVal_hexChar h2]
    rw [ihm (fun x hx => h x (by simp [hx]))]
    congr 1
    omega

/-- C8: for a 20-byte info hash, the swarm lookup applied to the binary
Buffer form and to the hex string form of the same hash normalizes to one
canonical binary key, so both calls resolve to the same Swarm (and leave the
registry in the same state). -/
theorem c8_hex_binary_same_swarm {C : Type} (st : ServerState C) (bs : List Nat)
    (hlen : bs.length = 20) (hb : ∀ b ∈ bs, b < 256) :
    getSwarm st (.buf bs) = getSwarm st (.str (hexEncode bs)) := by
  simp only [getSwarm]
  rw [hexDecode_hexEncode bs hb]

/-- Witness for C8 at the 20-byte hash of 0xAB bytes. -/
theorem c8_hex_binary_same_swarm_witness :
    getSwarm (serverInit (C := Nat)) (.buf (List.replicate 20 171))
      = getSwarm serverInit (.str (hexEncode (List.replicate 20 171))) :=
  c8_hex_binary_same_swarm serverInit (List.replicate 20 171) (by decide) (by decide)

/-! ### The reconnecting client (C9) -/

theorem warnCount_append (a b : List ClientEffect) :
    warnCount (a ++ b) = warnCount a + warnCount b := by
  simp [warnCount, List.filter_append]

theorem warnCount_pos_of_mem {l : List ClientEffect}
    (h : ClientEffect.emitWarning ∈ l) : warnCount l ≠ 0 := by
  induction l with
  | nil => simp at h
  | cons x rest ihm =>
    unfold warnCount at ihm ⊢
    rcases List.mem_cons.mp h with he | hm
    · subst he
      simp [List.filter_cons]
    · rw [List.filter_cons]
      split
      · simp
      · exact ihm hm

/-- Behavior of one physical connection attempt, by induction over the
callback trace: the configured backoff never changes; the errored flag
tracks the once-wrapper flag; the once-wrapper flag is monotone; the number
of warnings emitted matches whether the wrapper fired during the trace; a
close notification forces the wrapper never to have fired; a detached
connection fires no further errors; and a fired wrapper comes with the
close request and the armed reconnect timer carrying the configured
backoff. -/
theorem clientRun_props : ∀ (es : List ClientEvent) (s : SocketClient),
    s.errored = s.onerrorUsed →
    (clientRun s es).1.reconnectTimeout = s.reconnectTimeout
    ∧ (clientRun s es).1.errored = (clientRun s es).1.onerrorUsed
    ∧ (s.onerrorUsed = true → (clientRun s es).1.onerrorUsed = true)
    ∧ warnCount (clientRun s es).2
        = (if s.onerrorUsed then 0 else if (clientRun s es).1.onerrorUsed then 1 else 0)
    ∧ (ClientEffect.emitClose ∈ (clientRun s es).2
        → (clientRun s es).1.onerrorUsed = false)
    ∧ (s.wsAttached = false → (clientRun s es).1.onerrorUsed = s.onerrorUsed)
    ∧ ((clientRun s es).1.onerrorUsed = true → s.onerrorUsed = true
        ∨ (ClientEffect.wsCloseReq ∈ (clientRun s es).2
           ∧ ClientEffect.scheduleInit s.reconnectTimeout ∈ (clientRun s es).2)) := by
  intro es
  induction es with
  | nil =>
    intro s hs
    refine ⟨rfl, hs, fun h => h, ?_, ?_, fun _ => rfl, fun h => Or.inl h⟩
    · cases hu : s.onerrorUsed <;> simp [clientRun, warnCount, hu]
    · intro hmem
      simp [clientRun] at hmem
  | cons e rest ihm =>
    intro s hs
    cases e with
    | wsOpen =>
      by_cases ha : s.wsAttached
      · obtain ⟨t1, t2, t3, t4, t5, t6, t7⟩ := ihm s hs
        simp only [clientRun, clientStep, if_pos ha]
        refine ⟨t1, t2, t3, ?_, ?_, t6, ?_⟩
        · simpa [warnCount_append, warnCount] using t4
        · intro hmem
          simp only [List.mem_append, List.mem_singleton] at hmem
          rcases hmem with hmem | hmem
          · simp at hmem
          · exact t5 hmem
        · intro hu
          rcases t7 hu with h | ⟨hc, hsch⟩
          · exact Or.inl h
          · exact Or.inr ⟨by simp [hc], by simp [hsch]⟩
      · obtain H := ihm s hs
        simp only [clientRun, clientStep, if_neg ha]
        simpa using H
    | wsError =>
      by_cases hg : s.wsAttached ∧ s.onerrorUsed = false
      · have hs2 : ({ s with errored := true, onerrorUsed := true } : SocketClient).errored
            = ({ s with errored := true, onerrorUsed := true } : SocketClient).onerrorUsed := rfl
        obtain ⟨t1, t2, t3, t4, t5, t6, t7⟩ :=
          ihm { s with errored := true, onerrorUsed := true } hs2
        have husd : (clientRun { s with errored := true, onerrorUsed := true } rest).1.onerrorUsed
            = true := t3 rfl
        simp only [clientRun, clientStep, if_pos hg]
        refine ⟨t1, t2, fun _ => husd, ?_, ?_, ?_, ?_⟩
        · have hz : warnCount
              (clientRun { s with errored := true, onerrorUsed := true } rest).2 = 0 := by
            rw [t4]
            simp
          rw [warnCount_append, hz, hg.2, husd]
          simp [warnCount]
        · intro hmem
          simp only [List.mem_append] at hmem
          rcases hmem with hmem | hmem
          · simp at hmem
          · have hcontra := t5 hmem
            rw [husd] at hcontra
            simp at hcontra
        · intro hfa
          rw [hfa] at hg
          simp at hg
        · intro _
          exact Or.inr ⟨by simp, by simp⟩
      · obtain H := ihm s hs
        simp only [clientRun, clientStep, if_neg hg]
        simpa using H
    | wsClose =>
      by_cases ha : s.wsAttached
      · have hs2 : ({ s with wsAttached := false } : SocketClient).errored
            = ({ s with wsAttached := false } : SocketClient).onerrorUsed := hs
        obtain ⟨t1, t2, t3, t4, t5, t6, t7⟩ := ihm { s with wsAttached := false } hs2
        have t6f : (clientRun { s with wsAttached := false } rest).1.onerrorUsed
            = s.onerrorUsed := t6 rfl
        cases he : s.errored
        · have hne : ¬(s.errored = true) := by simp [he]
          have hu : s.onerrorUsed = false := by rw [← hs, he]
          simp only [clientRun, clientStep, if_pos ha, if_neg hne]
          refine ⟨t1, t2, ?_, ?_, ?_, ?_, ?_⟩
          · intro hx
            rw [hu] at hx
            simp at hx
          · rw [warnCount_append, t4]
            simp [warnCount, t6f, hu]
          · intro _
            rw [t6f, hu]
          · intro hfa
            rw [hfa] at ha
            simp at ha
          · intro hx
            rw [t6f, hu] at hx
            simp at hx
        · simp only [clientRun, clientStep, if_pos ha, if_pos he]
          refine ⟨t1, t2, fun hx => t3 hx, ?_, ?_, ?_, ?_⟩
          · simpa [warnCount_append, warnCount] using t4
          · intro hmem
            simp only [List.nil_append] at hmem
            exact t5 hmem
          · intro hfa
            rw [hfa] at ha
            simp at ha
          · intro hx
            rcases t7 hx with h | ⟨hc, hsch⟩
            · exact Or.inl h
            · exact Or.inr ⟨by simpa using hc, by simpa using hsch⟩
      · obtain H := ihm s hs
        simp only [clientRun, clientStep, if_neg ha]
        simpa using H

/-- C9: over the callback trace of one physical connection attempt of a
freshly constructed client, if a warning was emitted then exactly one
warning is emitted no matter how many error callbacks the underlying
connection delivers, no close notification is emitted anywhere in the
attempt, and the erroring step both requested the close of the underlying
connection and armed the reconnect timer with the configured backoff —
whose default is RECONNECT_TIMEOUT, 5000 milliseconds. -/
theorem c9_reconnect_one_warning (opt : Option Nat) (es : List ClientEvent)
    (h : ClientEffect.emitWarning ∈ (clientRun (mkSocket opt) es).2) :
    warnCount (clientRun (mkSocket opt) es).2 = 1
    ∧ ClientEffect.emitClose ∉ (clientRun (mkSocket opt) es).2
    ∧ ClientEffect.wsCloseReq ∈ (clientRun (mkSocket opt) es).2
    ∧ ClientEffect.scheduleInit (mkSocket opt).reconnectTimeout
        ∈ (clientRun (mkSocket opt) es).2
    ∧ (mkSocket none).reconnectTimeout = RECONNECT_TIMEOUT := by
  have hs : (mkSocket opt).errored = (mkSocket opt).onerrorUsed := rfl
  obtain ⟨t1, t2, t3, t4, t5, t6, t7⟩ := clientRun_props es (mkSocket opt) hs
  have hu0 : (mkSocket opt).onerrorUsed = false := by
    cases opt <;> rfl
  rw [hu0] at t4
  simp only [Bool.false_eq_true, if_false] at t4
  have hpos := warnCount_pos_of_mem h
  have husd : (clientRun (mkSocket opt) es).1.onerrorUsed = true := by
    cases hx : (clientRun (mkSocket opt) es).1.onerrorUsed
    · rw [hx] at t4
      simp at t4
      exact absurd t4 hpos
    · rfl
  rcases t7 husd with hcon | ⟨hc, hsch⟩
  · rw [hu0] at hcon
    simp at hcon
  · refine ⟨?_, ?_, hc, hsch, rfl⟩
    · rw [t4, husd]
      simp
    · intro hmem
      have := t5 hmem
      rw [husd] at this
      simp at this

/-- Witness for C9: the default-configured client sees two error callbacks
and then the close callback within one attempt. -/
theorem c9_reconnect_one_warning_witness :
    warnCount (clientRun (mkSocket none) [.wsError, .wsError, .wsClose]).2 = 1
    ∧ ClientEffect.emitClose ∉ (clientRun (mkSocket none) [.wsError, .wsError, .wsClose]).2
    ∧ ClientEffect.wsCloseReq ∈ (clientRun (mkSocket none) [.wsError, .wsError, .wsClose]).2
    ∧ ClientEffect.scheduleInit (mkSocket none).reconnectTimeout
        ∈ (clientRun (mkSocket none) [.wsError, .wsError, .wsClose]).2
    ∧ (mkSocket none).reconnectTimeout = RECONNECT_TIMEOUT :=
  c9_reconnect_one_warning none [.wsError, .wsError, .wsClose] (by decide)
